import Mathlib

/-!
# jluna: task pool, call trampolines and proxy payload

A shallow embedding of

* `ThreadPool::create` (both overloads) from `include/multi_threading.hpp`,
* `c_adapter::make`, `free_lambda`, `invoke_lambda_0..3` from `.src/c_adapter.cpp`,
* the `ProxyValue` payload declared in `include/proxy.hpp`,

followed by the properties proved about them.

Conventions of the embedding:

* `size_t` is a natural number below `SIZE_MOD = 2 ^ 64`; `+= 1` wraps.
* `int` arguments are integers; they are only compared, never computed with.
* A C++ callable is a function on an explicit host state `σ` that returns
  either a value or a thrown exception, together with the state it leaves.
* `std::mutex` is a boolean (`true` = held); `lock()` on a held mutex never
  returns, which is the `blocked` outcome.
* Exceptions that depend on the environment (a failed allocation, a throwing
  copy or `Task` constructor) are chosen by an explicit `Fault` argument of
  `create`; `none` is the run in which no statement throws.
* `std::map` is an association list kept sorted by key, and holds at most
  `MAP_MAX_SIZE` entries.
-/

namespace jluna

/-! ## Basic types -/

/-- Width of `size_t` in bits on the LP64 / LLP64 targets. -/
def SIZE_WIDTH : Nat := 64

/-- Number of distinct `size_t` values; unsigned arithmetic is modulo this. -/
def SIZE_MOD : Nat := 2 ^ SIZE_WIDTH

/-- Host-side errors, i.e. C++ exceptions. -/
inductive Exn where
  | bad_alloc
  | out_of_range
  | invalid_argument (what : String)
  | julia (what : String)
  | other (code : Nat)
  deriving DecidableEq, Repr

/-- Runtime handle (`Value*` of the runtime): either the sentinel `jl_nothing`
or a reference to some other runtime object. -/
inductive Value where
  | jl_nothing
  | ref (addr : Nat)
  deriving DecidableEq, Repr

/-- Outcome of running a C++ callable: a returned value or a thrown exception,
paired with the host state afterwards. -/
abbrev Eff (σ : Type) (ρ : Type) := σ → Except Exn ρ × σ

/-- The stored work item, `std::function<Value*()>`. -/
abbrev Work (σ : Type) := Eff σ Value

/-! ## `std::map<size_t, ...>` as a key-sorted association list -/

/-- Embedding of `std::map::emplace`: the pair is inserted at the sorted position of its key,
and nothing is inserted when the key is already present. -/
def map_emplace {β : Type} : List (Nat × β) → Nat → β → List (Nat × β)
  | [], k, v => [(k, v)]
  | (k', v') :: rest, k, v =>
    if k < k' then (k, v) :: (k', v') :: rest
    else if k = k' then (k', v') :: rest
    else (k', v') :: map_emplace rest k v

/-- Embedding of `std::map::at`: the mapped value, `none` standing for `std::out_of_range`. -/
def map_at {β : Type} : List (Nat × β) → Nat → Option β
  | [], _ => none
  | (k', v') :: rest, k => if k = k' then some v' else map_at rest k

/-- Embedding of `std::map::max_size()`. The value is implementation-defined, but `size()`
returns `size_t`, so no table ever holds more than `SIZE_MOD - 1` entries; the
embedding takes this loosest limit. Allocation failures below the limit are
left to the `Fault` oracle of `create`. -/
def MAP_MAX_SIZE : Nat := SIZE_MOD - 1

/-- The `emplace` statement: a table that already holds `max_size()` entries
cannot take a new key (the allocation of the node throws); otherwise the table
after `std::map::emplace`. -/
def emplace_stmt {β : Type} (m : List (Nat × β)) (k : Nat) (v : β) :
    Except Exn (List (Nat × β)) :=
  if (map_at m k).isNone && decide (MAP_MAX_SIZE ≤ m.length) then .error .bad_alloc
  else .ok (map_emplace m k v)

/-- Keys of the table in iteration order. -/
def map_keys {β : Type} (m : List (Nat × β)) : List Nat := m.map Prod.fst

/-! ## Task and ThreadPool -/

/-- Modelled from the spec: the body of the constructor
`Task::Task(std::function<Value*()>*, size_t)` lives in `.src/multi_threading.inl`,
which is not part of the sources; a Task "references" the work item and the id
it was constructed from, so it is recorded as exactly these two constructor
arguments. The pointer to the stored `std::function` is represented by the
stored work item itself. -/
structure Task (σ : Type) where
  work : Work σ
  _threadpool_id : Nat

/-- The static members of `ThreadPool`. -/
structure ThreadPool (σ : Type) where
  _current_id : Nat
  _storage_lock : Bool
  _storage : List (Nat × Work σ)

/-- Static initialisers: `_current_id = 0`, a free mutex, `_storage = {}`. -/
def ThreadPool.init (σ : Type) : ThreadPool σ :=
  { _current_id := 0, _storage_lock := false, _storage := [] }

/-- The statement of `create` that throws, if any. The first covers everything
evaluated by the `emplace` statement (copying the closure and its arguments,
`make_unique`, the node allocation), the second the `Task` constructor. -/
inductive Fault where
  | emplace (e : Exn)
  | task_ctor (e : Exn)
  deriving DecidableEq, Repr

/-- How a call of `create` ends. -/
inductive Outcome (σ : Type) where
  | returned (out : Task σ) (pool : ThreadPool σ)
  | raised (e : Exn) (pool : ThreadPool σ)
  | blocked (pool : ThreadPool σ)

/-- Whether the call returned a Task. -/
def Outcome.returns {σ : Type} : Outcome σ → Bool
  | .returned _ _ => true
  | _ => false

/-- The pool as the call leaves it. -/
def Outcome.pool {σ : Type} : Outcome σ → ThreadPool σ
  | .returned _ p => p
  | .raised _ p => p
  | .blocked p => p

/-- The closure stored by the `void` overload:
`[lambda, args...]() { lambda(args...); return jl_nothing; }`. -/
def work_void {σ α : Type} (lambda : α → Eff σ Unit) (args : α) : Work σ :=
  fun s =>
    match lambda args s with
    | (.ok (), s') => (.ok Value.jl_nothing, s')
    | (.error e, s') => (.error e, s')

/-- The closure stored by the non-`void` overload:
`[lambda, args...]() { return box(lambda(args...)); }`.
The parameter is declared `std::function<Return_t()>`, so `lambda(args...)` is
well-formed only for the empty pack; `args` is therefore of type `Unit`. -/
def work_box {σ ρ : Type} (box : ρ → Value) (lambda : Unit → Eff σ ρ) (args : Unit) : Work σ :=
  fun s =>
    match lambda args s with
    | (.ok r, s') => (.ok (box r), s')
    | (.error e, s') => (.error e, s')

/-- Embedding of `ThreadPool::create`, `void` overload (lines 96-108). -/
def ThreadPool.create_void {σ α : Type} (fault : Option Fault) (pool : ThreadPool σ)
    (lambda : α → Eff σ Unit) (args : α) : Outcome σ :=
  -- _storage_lock.lock();
  if pool._storage_lock then .blocked pool else
  let p1 := { pool with _storage_lock := true }
  -- _storage.emplace(_current_id, std::make_unique<...>([lambda, args...]() {...}));
  match fault with
  | some (.emplace e) => .raised e p1
  | _ =>
    match emplace_stmt p1._storage p1._current_id (work_void lambda args) with
    | .error e => .raised e p1
    | .ok storage =>
      let p2 := { p1 with _storage := storage }
      -- auto out = Task(_storage.at(_current_id).get(), _current_id);
      match map_at p2._storage p2._current_id with
      | none => .raised .out_of_range p2
      | some w =>
        match fault with
        | some (.task_ctor e) => .raised e p2
        | _ =>
          let out : Task σ := { work := w, _threadpool_id := p2._current_id }
          -- _current_id += 1;
          let p3 := { p2 with _current_id := (p2._current_id + 1) % SIZE_MOD }
          -- _storage_lock.unlock();
          let p4 := { p3 with _storage_lock := false }
          -- return out;
          .returned out p4

/-- Embedding of `ThreadPool::create`, non-`void` overload (lines 110-121). -/
def ThreadPool.create_box {σ ρ : Type} (fault : Option Fault) (pool : ThreadPool σ)
    (box : ρ → Value) (lambda : Unit → Eff σ ρ) (args : Unit) : Outcome σ :=
  -- _storage_lock.lock();
  if pool._storage_lock then .blocked pool else
  let p1 := { pool with _storage_lock := true }
  -- _storage.emplace(_current_id, std::make_unique<...>([lambda, args...]() {...}));
  match fault with
  | some (.emplace e) => .raised e p1
  | _ =>
    match emplace_stmt p1._storage p1._current_id (work_box box lambda args) with
    | .error e => .raised e p1
    | .ok storage =>
      let p2 := { p1 with _storage := storage }
      -- auto out = Task(_storage.at(_current_id).get(), _current_id);
      match map_at p2._storage p2._current_id with
      | none => .raised .out_of_range p2
      | some w =>
        match fault with
        | some (.task_ctor e) => .raised e p2
        | _ =>
          let out : Task σ := { work := w, _threadpool_id := p2._current_id }
          -- _current_id += 1;
          let p3 := { p2 with _current_id := (p2._current_id + 1) % SIZE_MOD }
          -- _storage_lock.unlock();
          let p4 := { p3 with _storage_lock := false }
          -- return out;
          .returned out p4

/-- One call of `create`, through either overload. -/
inductive Call (σ : Type) : Type 1 where
  | void {α : Type} (lambda : α → Eff σ Unit) (args : α)
  | box {ρ : Type} (box : ρ → Value) (lambda : Unit → Eff σ ρ) (args : Unit)

/-- The work item a call asks the pool to store. -/
def Call.work {σ : Type} : Call σ → Work σ
  | .void lambda args => work_void lambda args
  | .box b lambda args => work_box b lambda args

/-- Dispatch of a call to its overload. -/
def ThreadPool.create {σ : Type} (fault : Option Fault) (pool : ThreadPool σ) :
    Call σ → Outcome σ
  | .void lambda args => pool.create_void fault lambda args
  | .box b lambda args => pool.create_box fault b lambda args

/-- A serialised sequence of `create` calls in which no statement throws: the
Tasks returned so far and the pool, or `none` as soon as a call does not
return. -/
def ThreadPool.run {σ : Type} (pool : ThreadPool σ) :
    List (Call σ) → Option (List (Task σ) × ThreadPool σ)
  | [] => some ([], pool)
  | c :: cs =>
    match pool.create none c with
    | .returned out p =>
      match ThreadPool.run p cs with
      | some (outs, q) => some (out :: outs, q)
      | none => none
    | _ => none

/-- A call of the non-`void` overload on the trivial host state: the closure
returns the constant `n`, and `box` wraps it as the reference `n`. -/
def call_const (n : Nat) : Call Unit :=
  .box Value.ref (fun _ s => (.ok n, s)) ()

/-- A call of the `void` overload on the trivial host state: the closure takes
one captured argument and does nothing. -/
def call_noop (a : Nat) : Call Unit :=
  .void (fun (_ : Nat) s => (.ok (), s)) a

/-- The pool after a call of each overload from the initial pool: ids 0 and 1
are taken and the counter stands at 2. -/
def pool_after_two : ThreadPool Unit :=
  { _current_id := 2, _storage_lock := false,
    _storage := [(0, (call_noop 1).work), (1, (call_const 2).work)] }

/-- A pool whose counter holds the largest `size_t` value. -/
def pool_at_max : ThreadPool Unit :=
  { _current_id := SIZE_MOD - 1, _storage_lock := false, _storage := [] }

/-- A call-recording wrapper around a closure: the host state is extended by
the list of argument values the closure has been invoked with. -/
def logged {σ α ρ : Type} (f : α → Eff σ ρ) : α → Eff (List α × σ) ρ :=
  fun a s => ((f a s.2).1, (s.1 ++ [a], (f a s.2).2))

/-! ## `c_adapter`: closure release and call trampolines -/

/-- The closure types `lambda_0_arg` .. `lambda_3_arg` of `c_adapter.hpp`. -/
inductive LambdaType where
  | lambda_0_arg
  | lambda_1_arg
  | lambda_2_arg
  | lambda_3_arg
  deriving DecidableEq, Repr

/-- Number of arguments of a closure type. -/
def LambdaType.arity : LambdaType → Int
  | .lambda_0_arg => 0
  | .lambda_1_arg => 1
  | .lambda_2_arg => 2
  | .lambda_3_arg => 3

/-- The effect of `delete (T*) in`: which pointer was released, as which type. -/
structure Deleted where
  ptr : Nat
  as_type : LambdaType
  deriving DecidableEq, Repr

/-- Embedding of `c_adapter::free_lambda` (lines 25-37). -/
def free_lambda (in_ : Nat) (n_args : Int) : Except Exn Deleted :=
  if n_args = 0 then
    .ok { ptr := in_, as_type := .lambda_0_arg }
  else if n_args = 1 then
    .ok { ptr := in_, as_type := .lambda_1_arg }
  else if n_args = 2 then
    .ok { ptr := in_, as_type := .lambda_2_arg }
  else if n_args = 3 then
    .ok { ptr := in_, as_type := .lambda_3_arg }
  else
    .error (.invalid_argument
      ("In c_adapter::free: " ++ toString n_args ++ " is a invalid number of arguments"))

/-- Host state seen by the trampolines: what has been written to `std::cout`
(pointers printed, as addresses) and the rest of the host state. -/
structure World (σ : Type) where
  cout : List Nat
  host : σ

/-- A closure object of one of the four closure types: each takes runtime
handles and returns a runtime handle, or throws. -/
inductive Lambda (σ : Type) where
  | lambda_0_arg (f : Eff (World σ) Value)
  | lambda_1_arg (f : Value → Eff (World σ) Value)
  | lambda_2_arg (f : Value → Value → Eff (World σ) Value)
  | lambda_3_arg (f : Value → Value → Value → Eff (World σ) Value)

/-- A `void*`: its address and the object found there. -/
structure Pointer (σ : Type) where
  addr : Nat
  target : Lambda σ

/-- Embedding of `c_adapter::invoke_lambda_0` (lines 39-43): prints the pointer, then calls
the closure. The result is `none` when the pointer does not point to a
`lambda_0_arg`, where the cast has no defined behaviour. -/
def invoke_lambda_0 {σ : Type} (function_ptr : Pointer σ) :
    World σ → Option (Except Exn Value × World σ) :=
  fun w =>
    -- std::cout << function_ptr << std::endl;
    let w1 := { w with cout := w.cout ++ [function_ptr.addr] }
    match function_ptr.target with
    | .lambda_0_arg f => some (f w1)
    | _ => none

/-- Embedding of `c_adapter::invoke_lambda_1` (lines 45-48). -/
def invoke_lambda_1 {σ : Type} (function_ptr : Pointer σ) (x : Value) :
    World σ → Option (Except Exn Value × World σ) :=
  fun w =>
    match function_ptr.target with
    | .lambda_1_arg f => some (f x w)
    | _ => none

/-- Embedding of `c_adapter::invoke_lambda_2` (lines 50-53). -/
def invoke_lambda_2 {σ : Type} (function_ptr : Pointer σ) (x y : Value) :
    World σ → Option (Except Exn Value × World σ) :=
  fun w =>
    match function_ptr.target with
    | .lambda_2_arg f => some (f x y w)
    | _ => none

/-- Embedding of `c_adapter::invoke_lambda_3` (lines 55-58). -/
def invoke_lambda_3 {σ : Type} (function_ptr : Pointer σ) (x y z : Value) :
    World σ → Option (Except Exn Value × World σ) :=
  fun w =>
    match function_ptr.target with
    | .lambda_3_arg f => some (f x y z w)
    | _ => none

/-- A closure of two arguments that records the arguments it receives, in
order, in the host state and returns its second argument. -/
def record_2 : Value → Value → Eff (World (List (List Value))) Value :=
  fun x y w => (.ok y, { w with host := w.host ++ [[x, y]] })

/-- A closure of three arguments that records the arguments it receives and
then throws. -/
def record_throw_3 : Value → Value → Value → Eff (World (List (List Value))) Value :=
  fun x y z w => (.error (.other 3), { w with host := w.host ++ [[x, y, z]] })

/-! ## `c_adapter::make` -/

/-- The part of the runtime `make` touches: whether the collector is enabled. -/
structure Runtime where
  gc_enabled : Bool
  deriving DecidableEq, Repr

/-- Modelled from the spec: the runtime-side constructor
`jluna.cppcall.make_unnamed_function` is defined in the runtime-side sources of
the repository, which are not part of the sources here. By the spec an arity
outside the supported set `0..3` is the `InvalidArity` condition and creates no
object; for a supported arity the function object `new_function ptr n` is
created. -/
def make_unnamed_function (new_function : Nat → Int → Value) (function_ptr : Nat)
    (n_args : Int) : Except String Value :=
  if n_args = 0 ∨ n_args = 1 ∨ n_args = 2 ∨ n_args = 3 then
    .ok (new_function function_ptr n_args)
  else
    .error "InvalidArity"

/-- Modelled from the spec: `jluna::safe_call` is defined in a header that is not
part of the sources; it "captures any runtime-side exception and re-raises it as
a host-level error with the runtime's error message preserved". -/
def safe_call (call : Except String Value) : Except Exn Value :=
  match call with
  | .ok v => .ok v
  | .error msg => .error (.julia msg)

/-- Modelled from the spec: the macros `gc_pause` and `gc_unpause` come from
`julia_wrapper.hpp`, which is not part of the sources; `gc_pause` remembers
whether the collector was enabled and disables it. -/
def gc_pause (rt : Runtime) : Bool × Runtime :=
  (rt.gc_enabled, { rt with gc_enabled := false })

/-- Modelled from the spec: `gc_unpause` re-enables the collector if it was
enabled at the matching `gc_pause`. -/
def gc_unpause (before : Bool) (rt : Runtime) : Runtime :=
  if before then { rt with gc_enabled := true } else rt

/-- Embedding of `c_adapter::make` (lines 16-23). A host-level error raised by `safe_call`
leaves the function at that statement. -/
def make (new_function : Nat → Int → Value) (rt : Runtime) (function_ptr : Nat)
    (n_args : Int) : Except Exn Value × Runtime :=
  -- gc_pause;
  let (before, rt1) := gc_pause rt
  -- static auto* make = jl_eval_string("return jluna.cppcall.make_unnamed_function");
  -- auto* res = jluna::safe_call(make, jl_box_voidpointer(function_ptr), jl_box_int64(n_args));
  match safe_call (make_unnamed_function new_function function_ptr n_args) with
  | .error e => (.error e, rt1)
  | .ok res =>
    -- gc_unpause;
    let rt2 := gc_unpause before rt1
    -- return res;
    (.ok res, rt2)

/-! ## `Proxy::ProxyValue` -/

/-- The data members of `Proxy::ProxyValue` (lines 196-206); `_owner` is the
address of the owning payload, if any. `_is_mutating` is declared `const bool`. -/
structure ProxyValue where
  _owner : Option Nat
  _is_mutating : Bool
  _id_key : Nat
  _value_key : Nat
  _id_ref : Value
  _value_ref : Value
  deriving DecidableEq, Repr

/-- The members of a `ProxyValue` that can be assigned after construction:
all but the `const` member. -/
structure ProxyWrite where
  _owner : Option Nat
  _id_key : Nat
  _value_key : Nat
  _id_ref : Value
  _value_ref : Value
  deriving DecidableEq, Repr

/-- The assignable members of a payload as they currently are. -/
def ProxyValue.writable (pv : ProxyValue) : ProxyWrite :=
  { _owner := pv._owner, _id_key := pv._id_key, _value_key := pv._value_key,
    _id_ref := pv._id_ref, _value_ref := pv._value_ref }

/-- Writing the assignable members of a constructed payload. -/
def ProxyValue.store (pv : ProxyValue) (w : ProxyWrite) : ProxyValue :=
  { _owner := w._owner, _is_mutating := pv._is_mutating, _id_key := w._id_key,
    _value_key := w._value_key, _id_ref := w._id_ref, _value_ref := w._value_ref }

/-- The operations of a Proxy named by the spec. `update` carries the value the
runtime currently binds to the proxied variable; `other` is any further member
function, given by what it writes. -/
inductive ProxyOp where
  | field_access (field : String)
  | index_access (index : Nat)
  | assign (value : Value)
  | update (current : Value)
  | call (args : List Value)
  | other (write : ProxyValue → ProxyWrite)

/-- Modelled from the spec: the bodies of the member functions of `Proxy` are in
`.src/proxy.inl`, which is not part of the sources. Field access, index access
and calls are read-only on the receiver; assignment rebinds the cached value
(and, for a mutating proxy, writes through to the runtime, which is outside
the payload); `update` re-reads the cached value from the runtime. No body can
assign the `const` member, so every effect on the payload is a `store`. -/
def ProxyValue.apply (pv : ProxyValue) : ProxyOp → ProxyValue
  | .field_access _ => pv
  | .index_access _ => pv
  | .assign value => pv.store { pv.writable with _value_ref := value }
  | .update current => pv.store { pv.writable with _value_ref := current }
  | .call _ => pv
  | .other write => pv.store (write pv)

/-- A Proxy: shared ownership of a payload, given by the payload's address. -/
structure Proxy where
  _content : Nat
  deriving DecidableEq, Repr

/-- The payloads alive, by address. -/
abbrev Payloads := List (Nat × ProxyValue)

/-- Replaces the payload at an address, leaving every other one alone. -/
def Payloads.modify : Payloads → Nat → (ProxyValue → ProxyValue) → Payloads
  | [], _, _ => []
  | (k, pv) :: rest, addr, f =>
    if k = addr then (k, f pv) :: Payloads.modify rest addr f
    else (k, pv) :: Payloads.modify rest addr f

/-- An operation applied through a Proxy acts on the payload it shares. -/
def Proxy.apply (ps : Payloads) (step : Proxy × ProxyOp) : Payloads :=
  Payloads.modify ps step.1._content (fun pv => pv.apply step.2)

/-- Modelled from the spec: `Proxy::is_mutating` is defined in `.src/proxy.inl`,
which is not part of the sources; it returns the flag cached in the payload
(`none` when the Proxy holds no live payload). -/
def Proxy.is_mutating (ps : Payloads) (p : Proxy) : Option Bool :=
  (map_at ps p._content).map ProxyValue._is_mutating

/-! ## Lemmas on the work table -/

theorem map_at_emplace_some {β : Type} (m : List (Nat × β)) (k : Nat) (v : β) :
    ∃ w, map_at (map_emplace m k v) k = some w := by
  induction m with
  | nil => exact ⟨v, by simp [map_emplace, map_at]⟩
  | cons hd tl ih =>
    obtain ⟨k', v'⟩ := hd
    obtain ⟨w, hw⟩ := ih
    by_cases h1 : k < k'
    · exact ⟨v, by simp [map_emplace, map_at, h1]⟩
    · by_cases h2 : k = k'
      · exact ⟨v', by simp [map_emplace, map_at, h2]⟩
      · exact ⟨w, by simp [map_emplace, map_at, h1, h2, hw]⟩

theorem map_at_emplace_ne {β : Type} (m : List (Nat × β)) (k j : Nat) (v : β) (h : j ≠ k) :
    map_at (map_emplace m k v) j = map_at m j := by
  induction m with
  | nil => simp [map_emplace, map_at, h]
  | cons hd tl ih =>
    obtain ⟨k', v'⟩ := hd
    by_cases h1 : k < k'
    · simp [map_emplace, map_at, h1, h]
    · by_cases h2 : k = k'
      · simp [map_emplace, map_at, h2]
      · simp [map_emplace, map_at, h1, h2, ih]

/-- Emplacing a key above every key of the table appends the pair. -/
theorem map_emplace_append {β : Type} (m : List (Nat × β)) (k : Nat) (v : β)
    (h : ∀ j ∈ map_keys m, j < k) : map_emplace m k v = m ++ [(k, v)] := by
  induction m with
  | nil => rfl
  | cons hd tl ih =>
    obtain ⟨k', v'⟩ := hd
    have hk : k' < k := h k' (by simp [map_keys])
    have htl : ∀ j ∈ map_keys tl, j < k := fun j hj =>
      h j (by simp only [map_keys, List.map_cons, List.mem_cons] at hj ⊢; exact Or.inr hj)
    have h1 : ¬ k < k' := by omega
    have h2 : ¬ k = k' := by omega
    simp [map_emplace, h1, h2, ih htl]

/-- Looking up a key above every key of the table finds nothing. -/
theorem map_at_none_of_lt {β : Type} (m : List (Nat × β)) (k : Nat)
    (h : ∀ j ∈ map_keys m, j < k) : map_at m k = none := by
  induction m with
  | nil => rfl
  | cons hd tl ih =>
    obtain ⟨k', v'⟩ := hd
    have hk : k' < k := h k' (by simp [map_keys])
    have htl : ∀ j ∈ map_keys tl, j < k := fun j hj =>
      h j (by simp only [map_keys, List.map_cons, List.mem_cons] at hj ⊢; exact Or.inr hj)
    have h2 : ¬ k = k' := by omega
    simp [map_at, h2, ih htl]

theorem map_at_append_last {β : Type} (m : List (Nat × β)) (k : Nat) (v : β)
    (h : ∀ j ∈ map_keys m, j < k) : map_at (m ++ [(k, v)]) k = some v := by
  induction m with
  | nil => simp [map_at]
  | cons hd tl ih =>
    obtain ⟨k', v'⟩ := hd
    have hk : k' < k := h k' (by simp [map_keys])
    have htl : ∀ j ∈ map_keys tl, j < k := fun j hj =>
      h j (by simp only [map_keys, List.map_cons, List.mem_cons] at hj ⊢; exact Or.inr hj)
    have h2 : ¬ k = k' := by omega
    simp [map_at, h2, ih htl]

/-- Emplacing under a key that has no entry stores the new value there. -/
theorem map_at_emplace_fresh {β : Type} (m : List (Nat × β)) (k : Nat) (v : β)
    (h : map_at m k = none) : map_at (map_emplace m k v) k = some v := by
  induction m with
  | nil => simp [map_emplace, map_at]
  | cons hd tl ih =>
    obtain ⟨k', v'⟩ := hd
    by_cases h2 : k = k'
    · simp [map_at, h2] at h
    · simp only [map_at, h2, if_false] at h
      by_cases h1 : k < k'
      · simp [map_emplace, map_at, h1]
      · simp [map_emplace, map_at, h1, h2, ih h]

/-! ## Lemmas on `create` -/

theorem SIZE_MOD_pos : 0 < SIZE_MOD := by
  unfold SIZE_MOD SIZE_WIDTH; decide

theorem MAP_MAX_SIZE_lt : MAP_MAX_SIZE < SIZE_MOD := by
  unfold MAP_MAX_SIZE SIZE_MOD SIZE_WIDTH; decide

theorem map_emplace_length_le {β : Type} (m : List (Nat × β)) (k : Nat) (v : β) :
    (map_emplace m k v).length ≤ m.length + 1 := by
  induction m with
  | nil => simp [map_emplace]
  | cons hd tl ih =>
    obtain ⟨k', v'⟩ := hd
    by_cases h1 : k < k'
    · simp [map_emplace, h1]
    · by_cases h2 : k = k'
      · simp [map_emplace, h2]
      · simp only [map_emplace, h1, h2, if_false, List.length_cons]
        omega

theorem emplace_stmt_ok {β : Type} (m : List (Nat × β)) (k : Nat) (v : β)
    (h : m.length < MAP_MAX_SIZE) : emplace_stmt m k v = .ok (map_emplace m k v) := by
  have hn : ¬ MAP_MAX_SIZE ≤ m.length := by omega
  simp [emplace_stmt, hn]

theorem emplace_stmt_full {β : Type} (m : List (Nat × β)) (k : Nat) (v : β)
    (hk : map_at m k = none) (h : MAP_MAX_SIZE ≤ m.length) :
    emplace_stmt m k v = .error .bad_alloc := by
  simp [emplace_stmt, hk, h]

theorem emplace_stmt_eq_ok {β : Type} (m st : List (Nat × β)) (k : Nat) (v : β)
    (h : emplace_stmt m k v = .ok st) : st = map_emplace m k v := by
  unfold emplace_stmt at h
  split_ifs at h
  exact (Except.ok.inj h).symm

/-- With the mutex free, room in the table and no statement throwing, `create`
returns, and the result is determined by the emplace and the lookup. -/
theorem create_returns {σ : Type} (pool : ThreadPool σ) (c : Call σ)
    (hlock : pool._storage_lock = false) (hroom : pool._storage.length < MAP_MAX_SIZE) :
    ∃ w, map_at (map_emplace pool._storage pool._current_id c.work) pool._current_id = some w ∧
      pool.create none c = .returned
        { work := w, _threadpool_id := pool._current_id }
        { _current_id := (pool._current_id + 1) % SIZE_MOD, _storage_lock := false,
          _storage := map_emplace pool._storage pool._current_id c.work } := by
  obtain ⟨w, hw⟩ := map_at_emplace_some pool._storage pool._current_id c.work
  refine ⟨w, hw, ?_⟩
  cases c with
  | void lambda args =>
    simp only [Call.work] at hw
    simp [ThreadPool.create, ThreadPool.create_void, hlock, hw, Call.work,
      emplace_stmt_ok _ _ _ hroom]
  | box b lambda args =>
    simp only [Call.work] at hw
    simp [ThreadPool.create, ThreadPool.create_box, hlock, hw, Call.work,
      emplace_stmt_ok _ _ _ hroom]

/-- With the table at `max_size()` and the id not yet in it, `create` leaves by
the exception of the emplace statement. -/
theorem create_full {σ : Type} (pool : ThreadPool σ) (c : Call σ)
    (hlock : pool._storage_lock = false)
    (hk : map_at pool._storage pool._current_id = none)
    (hfull : MAP_MAX_SIZE ≤ pool._storage.length) :
    pool.create none c = .raised .bad_alloc { pool with _storage_lock := true } := by
  cases c with
  | void lambda args =>
    simp [ThreadPool.create, ThreadPool.create_void, hlock, emplace_stmt_full _ _ _ hk hfull]
  | box b lambda args =>
    simp [ThreadPool.create, ThreadPool.create_box, hlock, emplace_stmt_full _ _ _ hk hfull]

/-- What a returning call of `create` has done, whatever the oracle. -/
theorem create_returned {σ : Type} (pool : ThreadPool σ) (c : Call σ) (fault : Option Fault)
    (t : Task σ) (q : ThreadPool σ) (h : pool.create fault c = .returned t q) :
    pool._storage_lock = false ∧
    map_at (map_emplace pool._storage pool._current_id c.work) pool._current_id = some t.work ∧
    t._threadpool_id = pool._current_id ∧
    q = { _current_id := (pool._current_id + 1) % SIZE_MOD, _storage_lock := false,
          _storage := map_emplace pool._storage pool._current_id c.work } := by
  cases c with
  | void lambda args =>
    simp only [ThreadPool.create, ThreadPool.create_void] at h
    simp only [Call.work]
    generalize work_void lambda args = w at h ⊢
    cases hl : pool._storage_lock with
    | true => simp [hl] at h
    | false =>
      cases hem : emplace_stmt pool._storage pool._current_id w with
      | error e => rcases fault with _ | ⟨e' | e'⟩ <;> simp [hl, hem] at h
      | ok st =>
        have hst := emplace_stmt_eq_ok _ _ _ _ hem
        subst hst
        cases hat : map_at (map_emplace pool._storage pool._current_id w) pool._current_id with
        | none => rcases fault with _ | ⟨e' | e'⟩ <;> simp [hl, hem, hat] at h
        | some w' =>
          rcases fault with _ | ⟨e' | e'⟩
          · simp [hl, hem, hat] at h
            obtain ⟨rfl, rfl⟩ := h
            exact ⟨rfl, rfl, rfl, rfl⟩
          · simp [hl] at h
          · simp [hl, hem, hat] at h
  | box b lambda args =>
    simp only [ThreadPool.create, ThreadPool.create_box] at h
    simp only [Call.work]
    generalize work_box b lambda args = w at h ⊢
    cases hl : pool._storage_lock with
    | true => simp [hl] at h
    | false =>
      cases hem : emplace_stmt pool._storage pool._current_id w with
      | error e => rcases fault with _ | ⟨e' | e'⟩ <;> simp [hl, hem] at h
      | ok st =>
        have hst := emplace_stmt_eq_ok _ _ _ _ hem
        subst hst
        cases hat : map_at (map_emplace pool._storage pool._current_id w) pool._current_id with
        | none => rcases fault with _ | ⟨e' | e'⟩ <;> simp [hl, hem, hat] at h
        | some w' =>
          rcases fault with _ | ⟨e' | e'⟩
          · simp [hl, hem, hat] at h
            obtain ⟨rfl, rfl⟩ := h
            exact ⟨rfl, rfl, rfl, rfl⟩
          · simp [hl] at h
          · simp [hl, hem, hat] at h

/-- Ids handed out by a serialised run with room in the table: the call at
position `i` gets `(_current_id + i) % SIZE_MOD`, whatever the table holds. -/
theorem run_ids {σ : Type} (cs : List (Call σ)) :
    ∀ pool : ThreadPool σ, pool._storage_lock = false → pool._current_id < SIZE_MOD →
      pool._storage.length + cs.length ≤ MAP_MAX_SIZE →
      ∃ outs q, pool.run cs = some (outs, q) ∧
        outs.map Task._threadpool_id
          = (List.range cs.length).map (fun i => (pool._current_id + i) % SIZE_MOD) ∧
        q._current_id = (pool._current_id + cs.length) % SIZE_MOD ∧
        q._storage_lock = false := by
  induction cs with
  | nil =>
    intro pool hlock hid _
    exact ⟨[], pool, rfl, rfl, by simp [Nat.mod_eq_of_lt hid], hlock⟩
  | cons c rest ih =>
    intro pool hlock hid hroom
    simp only [List.length_cons] at hroom
    obtain ⟨w, -, hc⟩ := create_returns pool c hlock (by omega)
    have hlen := map_emplace_length_le pool._storage pool._current_id c.work
    obtain ⟨outs, q, hrun, hids, hq, hql⟩ := ih
      { _current_id := (pool._current_id + 1) % SIZE_MOD, _storage_lock := false,
        _storage := map_emplace pool._storage pool._current_id c.work }
      rfl (Nat.mod_lt _ SIZE_MOD_pos) (by simp only; omega)
    simp only at hids hq
    refine ⟨{ work := w, _threadpool_id := pool._current_id } :: outs, q,
      by simp [ThreadPool.run, hc, hrun], ?_, ?_, hql⟩
    · simp only [List.map_cons, List.length_cons, List.range_succ_eq_map, hids, List.map_map]
      congr 1
      · simp [Nat.mod_eq_of_lt hid]
      · apply List.map_congr_left
        intro i _
        simp only [Function.comp, Nat.mod_add_mod]
        congr 1
        omega
    · rw [hq]
      simp only [List.length_cons, Nat.mod_add_mod]
      congr 1
      omega

/-- A serialised run from a pool whose table holds exactly the keys below
`_current_id`: the calls all return exactly when the table has room for all of
them, and then each call has appended its own work item under the next id. -/
theorem run_dense {σ : Type} (cs : List (Call σ)) :
    ∀ pool : ThreadPool σ, pool._storage_lock = false →
      (∀ j ∈ map_keys pool._storage, j < pool._current_id) →
      pool._storage.length = pool._current_id → pool._current_id ≤ MAP_MAX_SIZE →
      (pool._current_id + cs.length ≤ MAP_MAX_SIZE →
        ∃ outs q, pool.run cs = some (outs, q) ∧
          outs.map Task._threadpool_id = List.range' pool._current_id cs.length ∧
          outs.map Task.work = cs.map Call.work ∧
          q._storage = pool._storage ++
            List.zip (List.range' pool._current_id cs.length) (cs.map Call.work) ∧
          q._current_id = pool._current_id + cs.length ∧
          q._storage_lock = false) ∧
      (MAP_MAX_SIZE < pool._current_id + cs.length → pool.run cs = none) := by
  induction cs with
  | nil =>
    intro pool hlock _ _ hmax
    exact ⟨fun _ => ⟨[], pool, rfl, rfl, rfl, by simp, rfl, hlock⟩,
      fun h => by simp only [List.length_nil] at h; omega⟩
  | cons c rest ih =>
    intro pool hlock hkeys hlen hmax
    have hfresh := map_at_none_of_lt _ _ hkeys
    by_cases hroom : pool._current_id < MAP_MAX_SIZE
    · obtain ⟨w, hw, hc⟩ := create_returns pool c hlock (by omega)
      rw [map_emplace_append _ _ _ hkeys] at hw hc
      rw [map_at_append_last _ _ _ hkeys] at hw
      have hwe : w = c.work := (Option.some.inj hw).symm
      subst hwe
      have hM := MAP_MAX_SIZE_lt
      have hnext : (pool._current_id + 1) % SIZE_MOD = pool._current_id + 1 :=
        Nat.mod_eq_of_lt (by omega)
      rw [hnext] at hc
      obtain ⟨ih1, ih2⟩ := ih
        { _current_id := pool._current_id + 1, _storage_lock := false,
          _storage := pool._storage ++ [(pool._current_id, c.work)] }
        rfl
        (by
          intro j hj
          simp only [map_keys, List.map_append, List.map_cons, List.map_nil, List.mem_append,
            List.mem_singleton] at hj
          rcases hj with hj | hj
          · have := hkeys j hj
            simp only; omega
          · simp only; omega)
        (by simp [hlen])
        (by simp only; omega)
      simp only at ih1 ih2
      constructor
      · intro hall
        simp only [List.length_cons] at hall
        obtain ⟨outs, q, hrun, hids, hworks, hst, hq, hql⟩ := ih1 (by omega)
        refine ⟨{ work := c.work, _threadpool_id := pool._current_id } :: outs, q,
          by simp [ThreadPool.run, hc, hrun], ?_, ?_, ?_, ?_, hql⟩
        · simp [hids, List.range']
        · simp [hworks]
        · simp [hst, List.range']
        · rw [hq]
          simp only [List.length_cons]
          omega
      · intro hover
        simp only [List.length_cons] at hover
        have := ih2 (by omega)
        simp [ThreadPool.run, hc, this]
    · have hfull : MAP_MAX_SIZE ≤ pool._storage.length := by omega
      have hc := create_full pool c hlock hfresh hfull
      constructor
      · intro hall
        simp only [List.length_cons] at hall
        omega
      · intro _
        simp [ThreadPool.run, hc]

/-- Pools reached from the initial one by serialised calls: the calls all return
exactly when there are at most `max_size()` of them, and then the counter
equals their number and the table lists their work items under the ids
`0, 1, ...` in order. -/
theorem run_init {σ : Type} (cs : List (Call σ)) :
    (cs.length ≤ MAP_MAX_SIZE →
      ∃ outs q, (ThreadPool.init σ).run cs = some (outs, q) ∧
        outs.map Task._threadpool_id = List.range' 0 cs.length ∧
        outs.map Task.work = cs.map Call.work ∧
        q._storage = List.zip (List.range' 0 cs.length) (cs.map Call.work) ∧
        q._current_id = cs.length ∧ q._storage_lock = false) ∧
    (MAP_MAX_SIZE < cs.length → (ThreadPool.init σ).run cs = none) := by
  obtain ⟨h1, h2⟩ := run_dense cs (ThreadPool.init σ) rfl
    (by simp [ThreadPool.init, map_keys]) rfl (Nat.zero_le _)
  constructor
  · intro hlen
    obtain ⟨outs, q, hrun, hids, hworks, hst, hq, hql⟩ :=
      h1 (by simpa [ThreadPool.init] using hlen)
    refine ⟨outs, q, hrun, hids, hworks, ?_, ?_, hql⟩
    · simpa [ThreadPool.init] using hst
    · simpa [ThreadPool.init] using hq
  · intro hlen
    exact h2 (by simpa [ThreadPool.init] using hlen)

/-- Looking up the key of a listed pair finds its value when keys are distinct. -/
theorem map_at_of_mem {β : Type} (m : List (Nat × β)) (k : Nat) (v : β)
    (hnd : (map_keys m).Nodup) (hmem : (k, v) ∈ m) : map_at m k = some v := by
  induction m with
  | nil => simp at hmem
  | cons hd tl ih =>
    obtain ⟨k', v'⟩ := hd
    simp only [map_keys, List.map_cons, List.nodup_cons, List.mem_map, Prod.exists,
      exists_and_right, exists_eq_right, not_exists] at hnd
    simp only [List.mem_cons, Prod.mk.injEq] at hmem
    rcases hmem with ⟨rfl, rfl⟩ | hmem
    · simp [map_at]
    · have hne : ¬ k = k' := by
        rintro rfl
        exact hnd.1 v hmem
      simp [map_at, hne, ih hnd.2 hmem]

/-- A pool reached from the initial one by serialised calls has a free mutex
and a table holding exactly the keys below `_current_id`. -/
theorem reached_dense {σ : Type} (cs : List (Call σ)) (outs : List (Task σ))
    (pool : ThreadPool σ) (hreach : (ThreadPool.init σ).run cs = some (outs, pool)) :
    pool._storage_lock = false ∧
    (∀ j ∈ map_keys pool._storage, j < pool._current_id) ∧
    pool._storage.length = pool._current_id ∧
    pool._current_id ≤ MAP_MAX_SIZE := by
  obtain ⟨h1, h2⟩ := run_init cs
  by_cases hle : cs.length ≤ MAP_MAX_SIZE
  · obtain ⟨outs', q', hrun, -, -, hst, hq, hql⟩ := h1 hle
    rw [hreach] at hrun
    simp only [Option.some.injEq, Prod.mk.injEq] at hrun
    obtain ⟨-, rfl⟩ := hrun
    refine ⟨hql, ?_, ?_, by omega⟩
    · intro j hj
      rw [hst, hq] at *
      simp only [map_keys, List.mem_map, Prod.exists, exists_and_right, exists_eq_right] at hj
      obtain ⟨w, hjw⟩ := hj
      have := (List.of_mem_zip hjw).1
      simp only [List.mem_range'_1] at this
      omega
    · rw [hst, hq]
      simp
  · rw [h2 (by omega)] at hreach
    cases hreach

/-- A call of `create` that returns, at an id not yet in the table, found the
table below `max_size()`. -/
theorem create_returned_room {σ : Type} (pool : ThreadPool σ) (c : Call σ)
    (fault : Option Fault) (t : Task σ) (q : ThreadPool σ)
    (h : pool.create fault c = .returned t q)
    (hk : map_at pool._storage pool._current_id = none) :
    pool._storage.length < MAP_MAX_SIZE := by
  by_contra hfull
  have hle : MAP_MAX_SIZE ≤ pool._storage.length := by omega
  cases c with
  | void lambda args =>
    simp only [ThreadPool.create, ThreadPool.create_void] at h
    generalize work_void lambda args = w at h
    have hem := emplace_stmt_full pool._storage pool._current_id w hk hle
    cases hl : pool._storage_lock <;> rcases fault with _ | ⟨e' | e'⟩ <;> simp [hl, hem] at h
  | box b lambda args =>
    simp only [ThreadPool.create, ThreadPool.create_box] at h
    generalize work_box b lambda args = w at h
    have hem := emplace_stmt_full pool._storage pool._current_id w hk hle
    cases hl : pool._storage_lock <;> rcases fault with _ | ⟨e' | e'⟩ <;> simp [hl, hem] at h

/-- What `create` does at a pool reached from the initial one when no statement
throws: below `max_size()` it returns the Task built from the id at entry and
the work item of the call, leaving the table with that pair appended, the
counter one larger and the mutex free; at `max_size()` the emplace statement
throws and the mutex stays held. -/
theorem create_at_reached {σ : Type} (cs : List (Call σ)) (outs : List (Task σ))
    (pool : ThreadPool σ) (c : Call σ)
    (hreach : (ThreadPool.init σ).run cs = some (outs, pool)) :
    pool.create none c =
      if pool._storage.length < MAP_MAX_SIZE then
        .returned { work := c.work, _threadpool_id := pool._current_id }
          { _current_id := pool._current_id + 1, _storage_lock := false,
            _storage := pool._storage ++ [(pool._current_id, c.work)] }
      else .raised .bad_alloc { pool with _storage_lock := true } := by
  obtain ⟨hlock, hkeys, hlen, -⟩ := reached_dense cs outs pool hreach
  have hfresh := map_at_none_of_lt _ _ hkeys
  by_cases hroom : pool._storage.length < MAP_MAX_SIZE
  · obtain ⟨w, hw, hc⟩ := create_returns pool c hlock hroom
    rw [map_emplace_append _ _ _ hkeys] at hw hc
    rw [map_at_append_last _ _ _ hkeys] at hw
    have hwe : w = c.work := (Option.some.inj hw).symm
    subst hwe
    have hM := MAP_MAX_SIZE_lt
    have hnext : (pool._current_id + 1) % SIZE_MOD = pool._current_id + 1 :=
      Nat.mod_eq_of_lt (by omega)
    rw [hnext] at hc
    rw [hc, if_pos hroom]
  · rw [create_full pool c hlock hfresh (by omega), if_neg hroom]

/-- Whatever the oracle, a call of `create` that returns at a pool reached from
the initial one has returned that same Task and left that same pool. -/
theorem create_returned_at_reached {σ : Type} (cs : List (Call σ)) (outs : List (Task σ))
    (pool : ThreadPool σ) (c : Call σ) (fault : Option Fault) (t : Task σ) (q : ThreadPool σ)
    (hreach : (ThreadPool.init σ).run cs = some (outs, pool))
    (hret : pool.create fault c = .returned t q) :
    t = { work := c.work, _threadpool_id := pool._current_id } ∧
    q = { _current_id := pool._current_id + 1, _storage_lock := false,
          _storage := pool._storage ++ [(pool._current_id, c.work)] } := by
  obtain ⟨hlock, hkeys, hlen, -⟩ := reached_dense cs outs pool hreach
  have hfresh := map_at_none_of_lt _ _ hkeys
  have hroom := create_returned_room pool c fault t q hret hfresh
  obtain ⟨-, hat, hid, hq⟩ := create_returned pool c fault t q hret
  rw [map_emplace_append _ _ _ hkeys] at hat hq
  rw [map_at_append_last _ _ _ hkeys] at hat
  have hM := MAP_MAX_SIZE_lt
  have hnext : (pool._current_id + 1) % SIZE_MOD = pool._current_id + 1 :=
    Nat.mod_eq_of_lt (by omega)
  rw [hnext] at hq
  refine ⟨?_, hq⟩
  obtain ⟨tw, tid⟩ := t
  simp only at hat hid
  rw [← Option.some.inj hat, hid]

/-- Entries of a table are still found after a pair is appended under a key
that had no entry. -/
theorem map_at_append_of_some {β : Type} (m : List (Nat × β)) (k j : Nat) (v w : β)
    (h : map_at m j = some w) : map_at (m ++ [(k, v)]) j = some w := by
  induction m with
  | nil => simp [map_at] at h
  | cons hd tl ih =>
    obtain ⟨k', v'⟩ := hd
    by_cases hj : j = k'
    · simpa [map_at, hj] using h
    · simp only [map_at, hj, if_false] at h
      simp [map_at, hj, ih h]

/-! ## Properties of `ThreadPool::create` -/

/-- C1 (as stated, refuted): at the pool whose `_current_id` is the largest
`size_t`, two successive `create` calls return the ids `2^64 - 1` and then `0`:
the first call leaves `_current_id` at `0`, not one larger, and the later Task
has the smaller id. -/
theorem create_id_wraps_at_max :
    (pool_at_max.create none (call_noop 7)).pool._current_id = 0 ∧
    (pool_at_max.run [call_noop 7, call_noop 8]).map
        (fun r => r.1.map Task._threadpool_id) = some [18446744073709551615, 0] := by
  decide

/-- C1 (amended): with the mutex free, room in the table and no statement
throwing, a `create` call at a pool whose `_current_id` is below the largest
`size_t` returns a Task built with the `_current_id` at entry and leaves
`_current_id` exactly one larger; and any serialised sequence of `n` such calls
that starts at `_current_id = i` with `i + n ≤ 2^64` returns the ids
`i, i+1, ..., i+n-1`, so that a Task created later has a strictly greater id
than any created earlier. -/
theorem create_ids_strictly_increasing {σ : Type} (pool : ThreadPool σ) (c : Call σ)
    (cs : List (Call σ)) (hlock : pool._storage_lock = false)
    (hid : pool._current_id + 1 < SIZE_MOD)
    (hlen : pool._current_id + cs.length ≤ SIZE_MOD)
    (hroom1 : pool._storage.length < MAP_MAX_SIZE)
    (hroom : pool._storage.length + cs.length ≤ MAP_MAX_SIZE) :
    (∃ w q, pool.create none c = .returned { work := w, _threadpool_id := pool._current_id } q ∧
        q._current_id = pool._current_id + 1) ∧
    (∃ outs q, pool.run cs = some (outs, q) ∧
        outs.map Task._threadpool_id = List.range' pool._current_id cs.length ∧
        (outs.map Task._threadpool_id).Pairwise (· < ·)) := by
  constructor
  · obtain ⟨w, -, hc⟩ := create_returns pool c hlock hroom1
    exact ⟨w, _, hc, Nat.mod_eq_of_lt hid⟩
  · obtain ⟨outs, q, hrun, hids, -, -⟩ := run_ids cs pool hlock (by omega) hroom
    have hr : outs.map Task._threadpool_id = List.range' pool._current_id cs.length := by
      rw [hids, List.range'_eq_map_range]
      apply List.map_congr_left
      intro i hi
      have : i < cs.length := List.mem_range.mp hi
      exact Nat.mod_eq_of_lt (by omega)
    refine ⟨outs, q, hrun, hr, ?_⟩
    rw [hr]
    exact List.pairwise_lt_range' _ _

/-- Instance of the amended C1 statement at the initial pool of the trivial host state. -/
theorem create_ids_strictly_increasing_witness :
    (∃ w q, (ThreadPool.init Unit).create none (call_const 5)
        = .returned { work := w, _threadpool_id := 0 } q ∧ q._current_id = 0 + 1) ∧
    (∃ outs q, (ThreadPool.init Unit).run [call_noop 1, call_const 2] = some (outs, q) ∧
        outs.map Task._threadpool_id = List.range' 0 2 ∧
        (outs.map Task._threadpool_id).Pairwise (· < ·)) :=
  create_ids_strictly_increasing (ThreadPool.init Unit) (call_const 5)
    [call_noop 1, call_const 2] rfl (by decide) (by decide) (by decide) (by decide)

/-- C2: in every pool reached from the initial state by serialised `create`
calls, `create` (either overload, no statement throwing, table below
`max_size()`) returns a Task built from the id at entry and from the entry
stored in `_storage` under that id, which is the work item of this very call:
the table it leaves holds that work item under the id, and no entry existed
under that id before the call. With the table at `max_size()` the emplace
statement throws instead. Whatever the oracle, a call that returns has
returned the Task of this id and work item. -/
theorem create_references_new_item {σ : Type} (cs : List (Call σ)) (outs : List (Task σ))
    (pool : ThreadPool σ) (c : Call σ)
    (hreach : (ThreadPool.init σ).run cs = some (outs, pool)) :
    pool.create none c =
      (if pool._storage.length < MAP_MAX_SIZE then
        .returned { work := c.work, _threadpool_id := pool._current_id }
          { _current_id := pool._current_id + 1, _storage_lock := false,
            _storage := pool._storage ++ [(pool._current_id, c.work)] }
      else .raised .bad_alloc { pool with _storage_lock := true }) ∧
    map_at (pool._storage ++ [(pool._current_id, c.work)]) pool._current_id = some c.work ∧
    map_at pool._storage pool._current_id = none ∧
    (∀ fault t q, pool.create fault c = .returned t q →
      t.work = c.work ∧ t._threadpool_id = pool._current_id ∧
      map_at q._storage pool._current_id = some c.work) := by
  obtain ⟨-, hkeys, -, -⟩ := reached_dense cs outs pool hreach
  refine ⟨create_at_reached cs outs pool c hreach, map_at_append_last _ _ _ hkeys,
    map_at_none_of_lt _ _ hkeys, ?_⟩
  intro fault t q hret
  obtain ⟨rfl, rfl⟩ := create_returned_at_reached cs outs pool c fault t q hreach hret
  exact ⟨rfl, rfl, map_at_append_last _ _ _ hkeys⟩

/-- Instance of the C2 statement at the pool reached by two calls, for a call of
each overload: both calls return, with the Task of id 2 and their own work
item. -/
theorem create_references_new_item_witness :
    (ThreadPool.init Unit).run [call_noop 1, call_const 2]
      = some ([{ work := (call_noop 1).work, _threadpool_id := 0 },
               { work := (call_const 2).work, _threadpool_id := 1 }], pool_after_two) ∧
    (pool_after_two.create none (call_noop 9)
      = .returned { work := (call_noop 9).work, _threadpool_id := 2 }
          { _current_id := 3, _storage_lock := false,
            _storage := [(0, (call_noop 1).work), (1, (call_const 2).work),
              (2, (call_noop 9).work)] } ∧
      map_at (pool_after_two._storage ++ [(2, (call_noop 9).work)]) 2
        = some (call_noop 9).work ∧
      map_at pool_after_two._storage 2 = none ∧
      (∀ fault t q, pool_after_two.create fault (call_noop 9) = .returned t q →
        t.work = (call_noop 9).work ∧ t._threadpool_id = 2 ∧
        map_at q._storage 2 = some (call_noop 9).work)) ∧
    (pool_after_two.create none (call_const 3)
      = .returned { work := (call_const 3).work, _threadpool_id := 2 }
          { _current_id := 3, _storage_lock := false,
            _storage := [(0, (call_noop 1).work), (1, (call_const 2).work),
              (2, (call_const 3).work)] } ∧
      map_at (pool_after_two._storage ++ [(2, (call_const 3).work)]) 2
        = some (call_const 3).work ∧
      map_at pool_after_two._storage 2 = none ∧
      (∀ fault t q, pool_after_two.create fault (call_const 3) = .returned t q →
        t.work = (call_const 3).work ∧ t._threadpool_id = 2 ∧
        map_at q._storage 2 = some (call_const 3).work)) :=
  ⟨rfl,
   create_references_new_item [call_noop 1, call_const 2]
     [{ work := (call_noop 1).work, _threadpool_id := 0 },
      { work := (call_const 2).work, _threadpool_id := 1 }]
     pool_after_two (call_noop 9) rfl,
   create_references_new_item [call_noop 1, call_const 2]
     [{ work := (call_noop 1).work, _threadpool_id := 0 },
      { work := (call_const 2).work, _threadpool_id := 1 }]
     pool_after_two (call_const 3) rfl⟩

/-- C4: whenever `N` serialised `create` calls from the initial pool have all
returned, the `N` returned ids are pairwise distinct and the work table holds
exactly `N` entries: the pairs (id, work item) of the returned Tasks, each
found under its id and each the work item of the corresponding call. The `N`
calls do all return (no statement throwing) exactly when `N` does not exceed
`max_size()` of the table. -/
theorem create_no_duplicate_ids {σ : Type} (cs : List (Call σ)) (outs : List (Task σ))
    (q : ThreadPool σ) (hrun : (ThreadPool.init σ).run cs = some (outs, q)) :
    outs.length = cs.length ∧
    (outs.map Task._threadpool_id).Nodup ∧
    q._storage.length = cs.length ∧
    q._storage = outs.map (fun t => (t._threadpool_id, t.work)) ∧
    outs.map Task.work = cs.map Call.work ∧
    (∀ t ∈ outs, map_at q._storage t._threadpool_id = some t.work) ∧
    ((ThreadPool.init σ).run cs).isSome = decide (cs.length ≤ MAP_MAX_SIZE) := by
  obtain ⟨h1, h2⟩ := run_init cs
  by_cases hle : cs.length ≤ MAP_MAX_SIZE
  · obtain ⟨outs', q', hrun', hids, hworks, hst, -, -⟩ := h1 hle
    have htot : ((ThreadPool.init σ).run cs).isSome = decide (cs.length ≤ MAP_MAX_SIZE) := by
      simp [hrun', hle]
    rw [hrun] at hrun'
    simp only [Option.some.injEq, Prod.mk.injEq] at hrun'
    obtain ⟨rfl, rfl⟩ := hrun'
    have hl : outs.length = cs.length := by
      have := congrArg List.length hids
      simpa using this
    have hnd : (outs.map Task._threadpool_id).Nodup := by
      rw [hids]
      exact List.nodup_range' _ _
    have hst' : q._storage = outs.map (fun t => (t._threadpool_id, t.work)) := by
      rw [hst, ← hids, ← hworks, List.zip_map']
    refine ⟨hl, hnd, ?_, hst', hworks, ?_, htot⟩
    · rw [hst', List.length_map, hl]
    · intro t ht
      apply map_at_of_mem
      · rw [hst']
        simpa [map_keys, Function.comp] using hnd
      · rw [hst']
        exact List.mem_map.mpr ⟨t, ht, rfl⟩
  · rw [h2 (by omega)] at hrun
    cases hrun

/-- Instance of the C4 statement for three calls from the initial pool. -/
theorem create_no_duplicate_ids_witness :
    [({ work := (call_noop 1).work, _threadpool_id := 0 } : Task Unit),
      { work := (call_const 2).work, _threadpool_id := 1 },
      { work := (call_noop 3).work, _threadpool_id := 2 }].length
      = [call_noop 1, call_const 2, call_noop 3].length ∧
    ([({ work := (call_noop 1).work, _threadpool_id := 0 } : Task Unit),
      { work := (call_const 2).work, _threadpool_id := 1 },
      { work := (call_noop 3).work, _threadpool_id := 2 }].map Task._threadpool_id).Nodup ∧
    [(0, (call_noop 1).work), (1, (call_const 2).work), (2, (call_noop 3).work)].length
      = [call_noop 1, call_const 2, call_noop 3].length ∧
    [(0, (call_noop 1).work), (1, (call_const 2).work), (2, (call_noop 3).work)]
      = [({ work := (call_noop 1).work, _threadpool_id := 0 } : Task Unit),
          { work := (call_const 2).work, _threadpool_id := 1 },
          { work := (call_noop 3).work, _threadpool_id := 2 }].map
            (fun t => (t._threadpool_id, t.work)) ∧
    [({ work := (call_noop 1).work, _threadpool_id := 0 } : Task Unit),
      { work := (call_const 2).work, _threadpool_id := 1 },
      { work := (call_noop 3).work, _threadpool_id := 2 }].map Task.work
      = [call_noop 1, call_const 2, call_noop 3].map Call.work ∧
    (∀ t ∈ [({ work := (call_noop 1).work, _threadpool_id := 0 } : Task Unit),
        { work := (call_const 2).work, _threadpool_id := 1 },
        { work := (call_noop 3).work, _threadpool_id := 2 }],
      map_at [(0, (call_noop 1).work), (1, (call_const 2).work), (2, (call_noop 3).work)]
        t._threadpool_id = some t.work) ∧
    ((ThreadPool.init Unit).run [call_noop 1, call_const 2, call_noop 3]).isSome
      = decide ([call_noop 1, call_const 2, call_noop 3].length ≤ MAP_MAX_SIZE) :=
  create_no_duplicate_ids [call_noop 1, call_const 2, call_noop 3]
    [{ work := (call_noop 1).work, _threadpool_id := 0 },
     { work := (call_const 2).work, _threadpool_id := 1 },
     { work := (call_noop 3).work, _threadpool_id := 2 }]
    { _current_id := 3, _storage_lock := false,
      _storage := [(0, (call_noop 1).work), (1, (call_const 2).work),
        (2, (call_noop 3).work)] }
    rfl

/-- C3: the work item `create` stores for a closure (found in the table under
the returned id, and referenced by the returned Task) runs the closure on the
captured arguments exactly once: its result and the host state it leaves are
those of a single invocation, mapped to `jl_nothing` for a `void` closure and
to `box r` for a closure returning `r`, an exception passing through; a
call-recording closure has recorded exactly the captured arguments, once. -/
theorem stored_work_item_runs_closure_once {σ α ρ : Type} (pool : ThreadPool σ)
    (lambda_v : α → Eff σ Unit) (args : α) (box : ρ → Value) (lambda_r : Unit → Eff σ ρ)
    (hlock : pool._storage_lock = false)
    (hroom : pool._storage.length < MAP_MAX_SIZE)
    (hfresh : map_at pool._storage pool._current_id = none) :
    (∃ q, pool.create_void none lambda_v args
        = .returned { work := work_void lambda_v args, _threadpool_id := pool._current_id } q ∧
      map_at q._storage pool._current_id = some (work_void lambda_v args)) ∧
    (∃ q, pool.create_box none box lambda_r ()
        = .returned { work := work_box box lambda_r (), _threadpool_id := pool._current_id } q ∧
      map_at q._storage pool._current_id = some (work_box box lambda_r ())) ∧
    (∀ s, work_void lambda_v args s
        = ((lambda_v args s).1.map (fun _ => Value.jl_nothing), (lambda_v args s).2)) ∧
    (∀ s, work_box box lambda_r () s = ((lambda_r () s).1.map box, (lambda_r () s).2)) ∧
    (∀ log s, (work_void (logged lambda_v) args (log, s)).2.1 = log ++ [args]) ∧
    (∀ log s, (work_box box (logged lambda_r) () (log, s)).2.1 = log ++ [()]) := by
  have hv := map_at_emplace_fresh pool._storage pool._current_id (work_void lambda_v args) hfresh
  have hr := map_at_emplace_fresh pool._storage pool._current_id (work_box box lambda_r ()) hfresh
  refine ⟨⟨{ _current_id := (pool._current_id + 1) % SIZE_MOD, _storage_lock := false,
              _storage := map_emplace pool._storage pool._current_id (work_void lambda_v args) },
            ?_, hv⟩,
          ⟨{ _current_id := (pool._current_id + 1) % SIZE_MOD, _storage_lock := false,
             _storage := map_emplace pool._storage pool._current_id (work_box box lambda_r ()) },
            ?_, hr⟩, ?_, ?_, ?_, ?_⟩
  · simp [ThreadPool.create_void, hlock, hv, emplace_stmt_ok _ _ _ hroom]
  · simp [ThreadPool.create_box, hlock, hr, emplace_stmt_ok _ _ _ hroom]
  · intro s
    simp only [work_void]
    rcases hcall : lambda_v args s with ⟨r, s'⟩
    cases r <;> rfl
  · intro s
    simp only [work_box]
    rcases hcall : lambda_r () s with ⟨r, s'⟩
    cases r <;> rfl
  · intro log s
    simp only [work_void, logged]
    cases (lambda_v args s).1 <;> rfl
  · intro log s
    simp only [work_box, logged]
    cases (lambda_r () s).1 <;> rfl

/-- Instance of the C3 statement at the initial pool, for a
`void` closure that counts its calls and a closure returning the counter. -/
theorem stored_work_item_runs_closure_once_witness :
    (∃ q, (ThreadPool.init Nat).create_void none (fun (_ : Nat) n => (.ok (), n + 1)) 7
        = .returned { work := work_void (fun (_ : Nat) n => (.ok (), n + 1)) 7,
                      _threadpool_id := 0 } q ∧
      map_at q._storage 0 = some (work_void (fun (_ : Nat) n => (.ok (), n + 1)) 7)) ∧
    (∃ q, (ThreadPool.init Nat).create_box none Value.ref (fun _ n => (.ok n, n + 1)) ()
        = .returned { work := work_box Value.ref (fun _ n => (.ok n, n + 1)) (),
                      _threadpool_id := 0 } q ∧
      map_at q._storage 0 = some (work_box Value.ref (fun _ n => (.ok n, n + 1)) ())) ∧
    (∀ s, work_void (fun (_ : Nat) n => (.ok (), n + 1)) 7 s
        = ((Except.ok () : Except Exn Unit).map (fun _ => Value.jl_nothing), s + 1)) ∧
    (∀ s, work_box Value.ref (fun _ n => (.ok n, n + 1)) () s
        = ((Except.ok s : Except Exn Nat).map Value.ref, s + 1)) ∧
    (∀ log s, (work_void (logged (fun (_ : Nat) (n : Nat) => (.ok (), n + 1))) 7 (log, s)).2.1
        = log ++ [7]) ∧
    (∀ log s, (work_box Value.ref (logged (fun (_ : Unit) (n : Nat) => (.ok n, n + 1))) ()
        (log, s)).2.1 = log ++ [()]) :=
  stored_work_item_runs_closure_once (ThreadPool.init Nat)
    (fun (_ : Nat) n => (.ok (), n + 1)) 7 Value.ref (fun _ n => (.ok n, n + 1)) rfl
    (by decide) rfl

/-- C5 (the code at the failing input): when the `emplace` statement of `create`
throws (here `std::bad_alloc`), or the `Task` constructor does, the call leaves
with `_storage_lock` still held, and the next `create` never gets past
`lock()`; only the normal return releases the mutex. -/
theorem create_throw_leaves_lock_held :
    (∃ p, (ThreadPool.init Unit).create (some (.emplace .bad_alloc)) (call_noop 0)
        = .raised .bad_alloc p ∧ p._storage_lock = true ∧
      ∃ p', p.create none (call_noop 1) = .blocked p') ∧
    (∃ p, (ThreadPool.init Unit).create (some (.task_ctor (.julia "error"))) (call_const 0)
        = .raised (.julia "error") p ∧ p._storage_lock = true ∧
      ∃ p', p.create none (call_noop 1) = .blocked p') ∧
    (∃ t p, (ThreadPool.init Unit).create none (call_noop 0) = .returned t p ∧
      p._storage_lock = false) :=
  ⟨⟨_, rfl, rfl, _, rfl⟩, ⟨_, rfl, rfl, _, rfl⟩, ⟨_, _, rfl, rfl⟩⟩

/-- C11: in every pool reached from the initial state by serialised `create`
calls, `create` (either overload, no statement throwing, table below
`max_size()`) returns and changes the pool only by adding its own entry: the
table it leaves is the old one with the pair (id at entry, work item of the
call) appended, so every old entry is still found under the same id with the
same work item and there is exactly one more entry, `_current_id` is exactly
one larger, and the mutex is free as before. With the table at `max_size()`
the emplace statement throws instead. Whatever the oracle, a call that returns
has left exactly that pool. -/
theorem create_only_adds_own_entry {σ : Type} (cs : List (Call σ)) (outs : List (Task σ))
    (pool : ThreadPool σ) (c : Call σ)
    (hreach : (ThreadPool.init σ).run cs = some (outs, pool)) :
    pool.create none c =
      (if pool._storage.length < MAP_MAX_SIZE then
        .returned { work := c.work, _threadpool_id := pool._current_id }
          { _current_id := pool._current_id + 1, _storage_lock := pool._storage_lock,
            _storage := pool._storage ++ [(pool._current_id, c.work)] }
      else .raised .bad_alloc { pool with _storage_lock := true }) ∧
    (∀ k w, map_at pool._storage k = some w →
      map_at (pool._storage ++ [(pool._current_id, c.work)]) k = some w) ∧
    (pool._storage ++ [(pool._current_id, c.work)]).length = pool._storage.length + 1 ∧
    (∀ fault t q, pool.create fault c = .returned t q →
      q._storage = pool._storage ++ [(pool._current_id, c.work)] ∧
      q._current_id = pool._current_id + 1 ∧
      q._storage_lock = pool._storage_lock ∧
      (∀ k w, map_at pool._storage k = some w → map_at q._storage k = some w) ∧
      q._storage.length = pool._storage.length + 1) := by
  obtain ⟨hlock, -, -, -⟩ := reached_dense cs outs pool hreach
  refine ⟨?_, fun k w h => map_at_append_of_some _ _ _ _ _ h, by simp, ?_⟩
  · rw [hlock]
    exact create_at_reached cs outs pool c hreach
  · intro fault t q hret
    obtain ⟨-, rfl⟩ := create_returned_at_reached cs outs pool c fault t q hreach hret
    exact ⟨rfl, rfl, hlock.symm, fun k w h => map_at_append_of_some _ _ _ _ _ h, by simp⟩

/-- Instance of the C11 statement at the pool reached by two calls, for a call
of each overload: both calls return and leave the table with one entry added
and the counter at 3. -/
theorem create_only_adds_own_entry_witness :
    (ThreadPool.init Unit).run [call_noop 1, call_const 2]
      = some ([{ work := (call_noop 1).work, _threadpool_id := 0 },
               { work := (call_const 2).work, _threadpool_id := 1 }], pool_after_two) ∧
    (pool_after_two.create none (call_noop 9)
      = .returned { work := (call_noop 9).work, _threadpool_id := 2 }
          { _current_id := 3, _storage_lock := false,
            _storage := [(0, (call_noop 1).work), (1, (call_const 2).work),
              (2, (call_noop 9).work)] } ∧
      (∀ k w, map_at pool_after_two._storage k = some w →
        map_at (pool_after_two._storage ++ [(2, (call_noop 9).work)]) k = some w) ∧
      (pool_after_two._storage ++ [(2, (call_noop 9).work)]).length = 2 + 1 ∧
      (∀ fault t q, pool_after_two.create fault (call_noop 9) = .returned t q →
        q._storage = pool_after_two._storage ++ [(2, (call_noop 9).work)] ∧
        q._current_id = 2 + 1 ∧
        q._storage_lock = false ∧
        (∀ k w, map_at pool_after_two._storage k = some w → map_at q._storage k = some w) ∧
        q._storage.length = 2 + 1)) ∧
    (pool_after_two.create none (call_const 3)
      = .returned { work := (call_const 3).work, _threadpool_id := 2 }
          { _current_id := 3, _storage_lock := false,
            _storage := [(0, (call_noop 1).work), (1, (call_const 2).work),
              (2, (call_const 3).work)] } ∧
      (∀ k w, map_at pool_after_two._storage k = some w →
        map_at (pool_after_two._storage ++ [(2, (call_const 3).work)]) k = some w) ∧
      (pool_after_two._storage ++ [(2, (call_const 3).work)]).length = 2 + 1 ∧
      (∀ fault t q, pool_after_two.create fault (call_const 3) = .returned t q →
        q._storage = pool_after_two._storage ++ [(2, (call_const 3).work)] ∧
        q._current_id = 2 + 1 ∧
        q._storage_lock = false ∧
        (∀ k w, map_at pool_after_two._storage k = some w → map_at q._storage k = some w) ∧
        q._storage.length = 2 + 1)) :=
  ⟨rfl,
   create_only_adds_own_entry [call_noop 1, call_const 2]
     [{ work := (call_noop 1).work, _threadpool_id := 0 },
      { work := (call_const 2).work, _threadpool_id := 1 }]
     pool_after_two (call_noop 9) rfl,
   create_only_adds_own_entry [call_noop 1, call_const 2]
     [{ work := (call_noop 1).work, _threadpool_id := 0 },
      { work := (call_const 2).work, _threadpool_id := 1 }]
     pool_after_two (call_const 3) rfl⟩

/-! ## Properties of `c_adapter` -/

/-- C6: `free_lambda` raises `std::invalid_argument`, and raises at all, exactly
when `n_args` is none of 0, 1, 2, 3 (negative values included); for the arity
of each closure type it raises nothing and releases the pointer as that very
type, and whenever it releases, the type released has arity `n_args`. -/
theorem free_lambda_raises_iff_unsupported (in_ : Nat) (n_args : Int) :
    ((∃ e, free_lambda in_ n_args = .error e)
        ↔ (n_args ≠ 0 ∧ n_args ≠ 1 ∧ n_args ≠ 2 ∧ n_args ≠ 3)) ∧
    ((∃ what, free_lambda in_ n_args = .error (.invalid_argument what))
        ↔ (n_args ≠ 0 ∧ n_args ≠ 1 ∧ n_args ≠ 2 ∧ n_args ≠ 3)) ∧
    (∀ t : LambdaType, free_lambda in_ t.arity = .ok { ptr := in_, as_type := t }) ∧
    (∀ d, free_lambda in_ n_args = .ok d ↔ (d.ptr = in_ ∧ d.as_type.arity = n_args)) := by
  refine ⟨?_, ?_, ?_, ?_⟩
  · unfold free_lambda
    split_ifs <;> simp_all
  · unfold free_lambda
    split_ifs <;> simp_all
  · intro t
    cases t <;> rfl
  · intro d
    obtain ⟨p, t⟩ := d
    unfold free_lambda
    constructor
    · split_ifs <;> intro h <;> simp_all [LambdaType.arity]
      all_goals (obtain ⟨rfl, rfl⟩ := h; simp [LambdaType.arity])
    · rintro ⟨rfl, rfl⟩
      cases t <;> simp [LambdaType.arity]

/-- C7: for each arity `k` in 0..3, the trampoline applied to a pointer to a
closure `f` of that arity yields exactly the outcome of one call of `f` on the
arguments in the order received: the handle `f` returns, or the error `f`
throws, and the host state `f` leaves (`invoke_lambda_0` first prints the
pointer). A closure recording its calls has recorded one call with the
arguments in order, also when it throws. -/
theorem invoke_lambda_calls_closure_once {σ : Type} (addr : Nat)
    (f0 : Eff (World σ) Value) (f1 : Value → Eff (World σ) Value)
    (f2 : Value → Value → Eff (World σ) Value)
    (f3 : Value → Value → Value → Eff (World σ) Value)
    (x y z : Value) (w : World σ) (rec : World (List (List Value))) :
    invoke_lambda_0 { addr := addr, target := .lambda_0_arg f0 } w
        = some (f0 { w with cout := w.cout ++ [addr] }) ∧
    invoke_lambda_1 { addr := addr, target := .lambda_1_arg f1 } x w = some (f1 x w) ∧
    invoke_lambda_2 { addr := addr, target := .lambda_2_arg f2 } x y w = some (f2 x y w) ∧
    invoke_lambda_3 { addr := addr, target := .lambda_3_arg f3 } x y z w = some (f3 x y z w) ∧
    invoke_lambda_2 { addr := addr, target := .lambda_2_arg record_2 } x y rec
        = some (.ok y, { rec with host := rec.host ++ [[x, y]] }) ∧
    invoke_lambda_3 { addr := addr, target := .lambda_3_arg record_throw_3 } x y z rec
        = some (.error (.other 3), { rec with host := rec.host ++ [[x, y, z]] }) :=
  ⟨rfl, rfl, rfl, rfl, rfl, rfl⟩

/-- C8: for every function pointer and every `n_args` other than 0, 1, 2, 3,
`make` ends with the host-level error carrying the runtime's `InvalidArity`
condition and returns no function object. -/
theorem make_rejects_unsupported_arity (new_function : Nat → Int → Value) (rt : Runtime)
    (function_ptr : Nat) (n_args : Int)
    (h : n_args ≠ 0 ∧ n_args ≠ 1 ∧ n_args ≠ 2 ∧ n_args ≠ 3) :
    (make new_function rt function_ptr n_args).1 = .error (.julia "InvalidArity") ∧
    ∀ v, (make new_function rt function_ptr n_args).1 ≠ .ok v := by
  obtain ⟨h0, h1, h2, h3⟩ := h
  have hm : (make new_function rt function_ptr n_args).1 = .error (.julia "InvalidArity") := by
    simp [make, gc_pause, safe_call, make_unnamed_function, h0, h1, h2, h3]
  refine ⟨hm, ?_⟩
  intro v hv
  rw [hm] at hv
  cases hv

/-- Instance of the C8 statement at `n_args = -1`. -/
theorem make_rejects_unsupported_arity_witness :
    (make (fun _ _ => Value.ref 1) { gc_enabled := true } 4096 (-1)).1
        = .error (.julia "InvalidArity") ∧
    ∀ v, (make (fun _ _ => Value.ref 1) { gc_enabled := true } 4096 (-1)).1 ≠ .ok v :=
  make_rejects_unsupported_arity (fun _ _ => Value.ref 1) { gc_enabled := true } 4096 (-1)
    (by decide)

/-- The collector after `make`: restored to its state at entry when the
constructor returns a value, disabled when `safe_call` raises. -/
theorem make_gc_state (new_function : Nat → Int → Value) (rt : Runtime)
    (function_ptr : Nat) (n_args : Int) :
    (make new_function rt function_ptr n_args).2.gc_enabled
      = match (make new_function rt function_ptr n_args).1 with
        | .ok _ => rt.gc_enabled
        | .error _ => false := by
  unfold make gc_pause
  cases h : safe_call (make_unnamed_function new_function function_ptr n_args) with
  | error e => rfl
  | ok res =>
    simp only [gc_unpause]
    cases hb : rt.gc_enabled <;> simp

/-- C12 (the code at the failing input): with the collector enabled at entry,
a call of `make` in which `safe_call` raises (here the `InvalidArity` error
for `n_args = 7`) leaves by that statement, `gc_unpause` is not reached and
the collector stays disabled; only when the constructor returns a value
(here for `n_args = 2`) is the collector enabled again. -/
theorem make_throw_leaves_gc_paused :
    (make (fun p _ => Value.ref p) { gc_enabled := true } 4096 7).1
        = .error (.julia "InvalidArity") ∧
    (make (fun p _ => Value.ref p) { gc_enabled := true } 4096 7).2.gc_enabled = false ∧
    (make (fun p _ => Value.ref p) { gc_enabled := true } 4096 2).1 = .ok (Value.ref 4096) ∧
    (make (fun p _ => Value.ref p) { gc_enabled := true } 4096 2).2.gc_enabled = true :=
  ⟨rfl, rfl, rfl, rfl⟩

/-! ## Properties of `Proxy::ProxyValue` -/

theorem apply_is_mutating (pv : ProxyValue) (op : ProxyOp) :
    (pv.apply op)._is_mutating = pv._is_mutating := by
  cases op <;> rfl

theorem map_at_modify (ps : Payloads) (addr k : Nat) (f : ProxyValue → ProxyValue) :
    map_at (Payloads.modify ps addr f) k
      = (map_at ps k).map (fun pv => if k = addr then f pv else pv) := by
  induction ps with
  | nil => rfl
  | cons hd tl ih =>
    obtain ⟨k', pv⟩ := hd
    by_cases hk : k' = addr
    · subst hk
      by_cases hkk : k = k'
      · subst hkk
        simp [Payloads.modify, map_at]
      · simp [Payloads.modify, map_at, hkk, ih]
    · by_cases hkk : k = k'
      · subst hkk
        simp [Payloads.modify, map_at, hk]
      · simp [Payloads.modify, map_at, hk, hkk, ih]

theorem is_mutating_step (ps : Payloads) (p : Proxy) (step : Proxy × ProxyOp) :
    Proxy.is_mutating (Proxy.apply ps step) p = Proxy.is_mutating ps p := by
  simp only [Proxy.is_mutating, Proxy.apply, map_at_modify, Option.map_map]
  cases map_at ps p._content with
  | none => rfl
  | some pv =>
    simp only [Option.map_some', Function.comp]
    split_ifs
    · rw [apply_is_mutating]
    · rfl

/-- C9: the mutating flag of a payload is the one it was constructed with: after
any sequence of operations (field or index access, assignment, update, call, or
any other write to the assignable members) applied to the payload, or applied
through any Proxies, sharing it or not, `is_mutating()` returns what it
returned before them. -/
theorem is_mutating_fixed_at_construction (ps : Payloads) (p : Proxy)
    (steps : List (Proxy × ProxyOp)) (pv : ProxyValue) (ops : List ProxyOp) :
    Proxy.is_mutating (steps.foldl Proxy.apply ps) p = Proxy.is_mutating ps p ∧
    (ops.foldl ProxyValue.apply pv)._is_mutating = pv._is_mutating := by
  constructor
  · induction steps generalizing ps with
    | nil => rfl
    | cons step rest ih =>
      rw [List.foldl_cons, ih, is_mutating_step]
  · induction ops generalizing pv with
    | nil => rfl
    | cons op rest ih =>
      rw [List.foldl_cons, ih, apply_is_mutating]

end jluna
